import Mathlib

/-!
Shallow embedding of the simulation core of the snake game in src/src/main.rs
(a bevy ECS application).  The pure game logic of each bevy system is embedded
as a Lean function on an explicit simulation state; the ECS entity store is
modelled as lists of (handle, position) records, and bevy events as a pending
counter.  Grid positions are mathematical integers, mirroring the i32 fields
of the Rust "Position" component.
-/

namespace BlockBite

/-- Rust: "struct Position { x: i32, y: i32 }" (Component, Clone, Copy, PartialEq, Eq). -/
structure Position where
  x : Int
  y : Int
deriving DecidableEq, Repr

/-- Rust: "enum Direction { Left, Up, Right, Down }". -/
inductive Direction where
  | Left
  | Up
  | Right
  | Down
deriving DecidableEq, Repr, Fintype

/-- Rust: "impl Direction r fn oppsite(self)": Left and Right swap, Up and Down swap.
(The source spells the method "oppsite".) -/
def Direction.oppsite : Direction → Direction
  | .Left => .Right
  | .Right => .Left
  | .Up => .Down
  | .Down => .Up

/-- One snake segment: a stable entity handle plus its grid Position.
The visual Size component (0.8 for the head sprite, 0.65 for body sprites)
carries no game-logic state and is not modelled. -/
structure Segment where
  id : Nat
  pos : Position
deriving DecidableEq, Repr

/-- The simulation state: the "SnakeSegments" resource (ordered entity list,
head first) joined with each segment entity's Position component, the head's
"SnakeHead" direction, the "LastTailPosition" resource, the food entities
with their Position components, the number of unread "GrowthEvent"s, and a
fresh-handle counter standing for the ECS entity allocator. -/
structure GameState where
  segments : List Segment
  direction : Direction
  lastTail : Option Position
  foods : List (Nat × Position)
  pendingGrowth : Nat
  nextId : Nat
deriving DecidableEq, Repr

/-- Rust: "const ARENA_WIDTH: u32 = 10". -/
def ARENA_WIDTH : Nat := 10

/-- Rust: "const ARENA_HEIGHT: u32 = 10". -/
def ARENA_HEIGHT : Nat := 10

/-- Sampled "currently held" state of the four arrow keys
(bevy's "ButtonInput(KeyCode)" restricted to the keys the game reads). -/
structure KeyState where
  left : Bool
  down : Bool
  up : Bool
  right : Bool
deriving DecidableEq, Repr, Fintype

/-- Whether the key corresponding to a direction is held. -/
def KeyState.holds (k : KeyState) : Direction → Bool
  | .Left => k.left
  | .Down => k.down
  | .Up => k.up
  | .Right => k.right

/-- Rust, body of "snake_movement_input": the if/else-if chain over
ArrowLeft, ArrowDown, ArrowUp, ArrowRight; falls back to the current heading
when no arrow key is pressed. -/
def proposedDir (k : KeyState) (current : Direction) : Direction :=
  if k.left then .Left
  else if k.down then .Down
  else if k.up then .Up
  else if k.right then .Right
  else current

/-- Rust, tail of "snake_movement_input":
"if dir != head.direction.oppsite() \x7b head.direction = dir; \x7d".
The candidate heading is applied unless it is the exact opposite of the
current heading. -/
def set_candidate (h c : Direction) : Direction :=
  if h = c.oppsite then c else h

/-- Rust: the full "snake_movement_input" system, acting on the head's
direction given the sampled key state. -/
def snake_movement_input (k : KeyState) (current : Direction) : Direction :=
  set_candidate (proposedDir k current) current

/-- "snake_movement_input" lifted to the simulation state: it does nothing
when no SnakeHead entity exists (the "if let Some(mut head)" guard). -/
def snake_movement_input_state (k : KeyState) (s : GameState) : GameState :=
  match s.segments with
  | [] => s
  | _ :: _ => { s with direction := snake_movement_input k s.direction }

/-- Spec-side description of the input priority: the four arrow directions in
the order the source's if/else-if chain tests them. -/
def priorityOrder : List Direction := [.Left, .Down, .Up, .Right]

/-- Rust, head step of "snake_movement": the match on head.direction that
mutates head_pos in place (Left: x - 1, Right: x + 1, Up: y + 1, Down: y - 1). -/
def moveHead : Direction → Position → Position
  | .Left, p => { p with x := p.x - 1 }
  | .Right, p => { p with x := p.x + 1 }
  | .Up, p => { p with y := p.y + 1 }
  | .Down, p => { p with y := p.y - 1 }

/-- Rust: the "snake_movement" system.  When a head exists (after spawn it
always does), it snapshots every segment position in chain order, applies a
unit step to the head, writes segment i := snapshot of segment i-1 via
"segment_positions.iter().zip(segments.iter().skip(1))", and caches the last
snapshot entry (the old tail cell) into LastTailPosition. -/
def snake_movement (s : GameState) : GameState :=
  match s.segments with
  | [] => s
  | headSeg :: rest =>
    let snapshot := headSeg.pos :: rest.map Segment.pos
    { s with
      segments :=
        { headSeg with pos := moveHead s.direction headSeg.pos } ::
          List.zipWith (fun p seg => { seg with pos := p }) snapshot rest,
      lastTail := some (snapshot.getLast (List.cons_ne_nil _ _)) }

/-- Rust: the "snake_eating" system.  For the (unique) SnakeHead position and
every Food entity, a food whose Position equals the head's is despawned and
one GrowthEvent is sent; the deferred despawns leave exactly the non-matching
foods alive. -/
def snake_eating (s : GameState) : GameState :=
  match s.segments with
  | [] => s
  | headSeg :: _ =>
    { s with
      foods := s.foods.filter (fun f => ¬ f.2 = headSeg.pos),
      pendingGrowth :=
        s.pendingGrowth + s.foods.countP (fun f => f.2 = headSeg.pos) }

/-- Rust: the "snake_growth" system.
"if growth_reader.iter().next().is_some() \x7b segments.push(spawn_segment(commands, last_tail_position.0.unwrap())) \x7d":
when at least one GrowthEvent is unread, exactly one event is consumed
(".next()" advances the reader by one) and exactly one segment is pushed at
the cached LastTailPosition.  The ".unwrap()" of the Option is modelled as
Option-valued failure: "none" is the panic on an unset LastTailPosition. -/
def snake_growth (s : GameState) : Option GameState :=
  if 0 < s.pendingGrowth then
    match s.lastTail with
    | none => none
    | some p =>
      some { s with
             segments := s.segments ++ [⟨s.nextId, p⟩],
             pendingGrowth := s.pendingGrowth - 1,
             nextId := s.nextId + 1 }
  else
    some s

/-- Rust: the "food_spawner" system.  The two "random::(f32)()" draws in
[0, 1) are passed in as rational parameters; "(r * ARENA_WIDTH as f32) as i32"
truncates the non-negative product, i.e. takes its floor. -/
def food_spawner (r1 r2 : ℚ) (s : GameState) : GameState :=
  { s with
    foods := s.foods ++
      [(s.nextId, ⟨⌊r1 * (ARENA_WIDTH : ℚ)⌋, ⌊r2 * (ARENA_HEIGHT : ℚ)⌋⟩)],
    nextId := s.nextId + 1 }

/-- Rust: the "spawn_snake" startup system.  It replaces the SnakeSegments
resource with exactly two fresh entities: the head at (3, 3) carrying
SnakeHead with direction Up, then one body segment from "spawn_segment" at
(3, 2).  LastTailPosition starts as its Default, "None", and no GrowthEvent
has been sent. -/
def initialState : GameState :=
  { segments := [⟨0, ⟨3, 3⟩⟩, ⟨1, ⟨3, 2⟩⟩]
  , direction := .Up
  , lastTail := none
  , foods := []
  , pendingGrowth := 0
  , nextId := 2 }

/-- One scheduled system invocation.  The Update schedule runs the input,
movement (timer-gated), eating and growth systems; the food spawner runs on
its own one-second timer. -/
inductive Step where
  | input (k : KeyState)
  | move
  | eat
  | grow
  | spawnFood (r1 r2 : ℚ)

/-- Effect of one system invocation on the simulation state; "none" is a
panic (the unwrap inside snake_growth). -/
def step : Step → GameState → Option GameState
  | .input k, s => some (snake_movement_input_state k s)
  | .move, s => some (snake_movement s)
  | .eat, s => some (snake_eating s)
  | .grow, s => snake_growth s
  | .spawnFood r1 r2, s => some (food_spawner r1 r2 s)

/-- Run a sequence of system invocations from a state, propagating panic. -/
def run (s : GameState) : List Step → Option GameState
  | [] => some s
  | σ :: rest =>
    match step σ s with
    | none => none
    | some s2 => run s2 rest

theorem zipWith_setPos_getElem? (ps : List Position) (segs : List Segment)
    (j : Nat) (hj : j < segs.length) (hj2 : j < ps.length) :
    ((List.zipWith (fun p seg => { seg with pos := p }) ps segs)[j]?).map
        Segment.pos = ps[j]? := by
  induction ps generalizing segs j with
  | nil => simp at hj2
  | cons p ps ih =>
    cases segs with
    | nil => simp at hj
    | cons seg segs =>
      cases j with
      | zero => simp
      | succ j =>
        simp only [List.zipWith_cons_cons, List.getElem?_cons_succ]
        exact ih segs j (by simpa using hj) (by simpa using hj2)

theorem zipWith_setPos_map_id (ps : List Position) (segs : List Segment)
    (hlen : segs.length ≤ ps.length) :
    (List.zipWith (fun p seg => { seg with pos := p }) ps segs).map Segment.id
      = segs.map Segment.id := by
  induction ps generalizing segs with
  | nil =>
    cases segs with
    | nil => simp
    | cons seg segs => simp at hlen
  | cons p ps ih =>
    cases segs with
    | nil => simp
    | cons seg segs =>
      simp only [List.zipWith_cons_cons, List.map_cons, List.cons.injEq]
      exact ⟨by trivial, ih segs (by simpa using hlen)⟩

/-- Claim C1: after one movement tick the head's new position is its pre-move
position shifted one unit on the heading's axis and sign (Left: x-1,
Right: x+1, Up: y+1, Down: y-1), and every trailing segment i in [1, n-1]
takes the pre-move snapshot position of segment i-1.  The state is arbitrary,
so this holds at every integer head position, with no clamping or wrap. -/
theorem snake_movement_tick (s : GameState) (headSeg : Segment)
    (rest : List Segment) (hseg : s.segments = headSeg :: rest) :
    (s.direction = .Left →
      ((snake_movement s).segments[0]?).map Segment.pos =
        some ⟨headSeg.pos.x - 1, headSeg.pos.y⟩) ∧
    (s.direction = .Right →
      ((snake_movement s).segments[0]?).map Segment.pos =
        some ⟨headSeg.pos.x + 1, headSeg.pos.y⟩) ∧
    (s.direction = .Up →
      ((snake_movement s).segments[0]?).map Segment.pos =
        some ⟨headSeg.pos.x, headSeg.pos.y + 1⟩) ∧
    (s.direction = .Down →
      ((snake_movement s).segments[0]?).map Segment.pos =
        some ⟨headSeg.pos.x, headSeg.pos.y - 1⟩) ∧
    (∀ i, 1 ≤ i → i < s.segments.length →
      ((snake_movement s).segments[i]?).map Segment.pos =
        (s.segments[i - 1]?).map Segment.pos) := by
  obtain ⟨segs, dir, lt, fd, pg, ni⟩ := s
  simp only at hseg
  subst hseg
  refine ⟨?_, ?_, ?_, ?_, ?_⟩
  case _ =>
    intro hdir; simp only at hdir; subst hdir
    simp [snake_movement, moveHead]
  case _ =>
    intro hdir; simp only at hdir; subst hdir
    simp [snake_movement, moveHead]
  case _ =>
    intro hdir; simp only at hdir; subst hdir
    simp [snake_movement, moveHead]
  case _ =>
    intro hdir; simp only at hdir; subst hdir
    simp [snake_movement, moveHead]
  case _ =>
    intro i h1 hlen
    obtain ⟨j, rfl⟩ : ∃ j, i = j + 1 := ⟨i - 1, (Nat.succ_pred_eq_of_pos h1).symm⟩
    simp only [List.length_cons] at hlen
    have hj : j < rest.length := Nat.lt_of_succ_lt_succ hlen
    simp only [snake_movement, List.getElem?_cons_succ, Nat.add_sub_cancel]
    rw [zipWith_setPos_getElem? (headSeg.pos :: rest.map Segment.pos) rest j hj
        (by simp [Nat.lt_succ_of_lt hj])]
    have : headSeg.pos :: rest.map Segment.pos =
        (headSeg :: rest).map Segment.pos := by simp
    rw [this, List.getElem?_map]

/-- Witness for C1: the spec scenario, head at (3, 3) heading Up with one
body segment at (3, 2): after one tick the head is at (3, 4) and the body
segment moves into (3, 3). -/
theorem snake_movement_tick_witness :
    ((snake_movement initialState).segments[0]?).map Segment.pos =
      some ⟨3, 4⟩ ∧
    ((snake_movement initialState).segments[1]?).map Segment.pos =
      (initialState.segments[0]?).map Segment.pos := by
  have h := snake_movement_tick initialState ⟨0, ⟨3, 3⟩⟩ [⟨1, ⟨3, 2⟩⟩] rfl
  exact ⟨h.2.2.1 rfl, h.2.2.2.2 1 (by decide) (by decide)⟩

/-- Claim C9: a movement tick mutates only segment positions and the
LastTailPosition cache: the handle list (length, membership, order), the
heading, the food table and the entity allocator are untouched, so nothing
is spawned or despawned. -/
theorem snake_movement_frame_effect :
    ∀ s : GameState,
      (snake_movement s).segments.map Segment.id = s.segments.map Segment.id ∧
      (snake_movement s).segments.length = s.segments.length ∧
      (snake_movement s).direction = s.direction ∧
      (snake_movement s).foods = s.foods ∧
      (snake_movement s).pendingGrowth = s.pendingGrowth ∧
      (snake_movement s).nextId = s.nextId := by
  intro s
  obtain ⟨segs, dir, lt, fd, pg, ni⟩ := s
  cases segs with
  | nil => exact ⟨rfl, rfl, rfl, rfl, rfl, rfl⟩
  | cons headSeg rest =>
    have hids : (snake_movement ⟨headSeg :: rest, dir, lt, fd, pg, ni⟩).segments.map
        Segment.id = (headSeg :: rest).map Segment.id := by
      simp only [snake_movement, List.map_cons]
      rw [zipWith_setPos_map_id (headSeg.pos :: rest.map Segment.pos) rest
        (by simp [Nat.le_succ])]
    refine ⟨hids, ?_, rfl, rfl, rfl, rfl⟩
    have := congrArg List.length hids
    simpa using this

/-- Concrete state for settling claim C2: the spawned two-segment snake whose
tail cache holds (3, 2), with two GrowthEvents pending in the same frame. -/
def twoPendingState : GameState :=
  { segments := [⟨0, ⟨3, 3⟩⟩, ⟨1, ⟨3, 2⟩⟩]
  , direction := .Up
  , lastTail := some ⟨3, 2⟩
  , foods := []
  , pendingGrowth := 2
  , nextId := 2 }

/-- Counterexample to claim C2 as stated: with k = 2 growth signals pending
in one frame, the growth handler appends one segment (chain length 3, not 4)
and consumes only one signal (one remains unread), because the source guards
a single push with "if growth_reader.iter().next().is_some()" instead of
looping over the events. -/
theorem snake_growth_multi_signal_cex :
    twoPendingState.pendingGrowth = 2 ∧
    twoPendingState.segments.length = 2 ∧
    ¬ (snake_growth twoPendingState).map (fun t => t.segments.length) =
        some 4 ∧
    (snake_growth twoPendingState).map (fun t => t.segments.length) =
        some 3 ∧
    (snake_growth twoPendingState).map (fun t => t.pendingGrowth) = some 1 := by
  decide

/-- Claim C2 amended: on every frame with at least one pending Growth Signal
and a populated Last Tail Position, the growth handler consumes exactly one
signal and appends exactly one segment at the cached tail cell, leaving the
remaining signals pending; with no pending signal it changes nothing. -/
theorem snake_growth_one_per_frame :
    (∀ (s : GameState) (p : Position), s.lastTail = some p →
      0 < s.pendingGrowth →
      ∃ s2, snake_growth s = some s2 ∧
        s2.segments.map Segment.pos = s.segments.map Segment.pos ++ [p] ∧
        s2.segments.length = s.segments.length + 1 ∧
        s2.pendingGrowth = s.pendingGrowth - 1 ∧
        s2.lastTail = s.lastTail ∧
        s2.direction = s.direction ∧
        s2.foods = s.foods) ∧
    (∀ s : GameState, s.pendingGrowth = 0 → snake_growth s = some s) := by
  constructor
  · intro s p hlt hpg
    have h : snake_growth s =
        some { s with
               segments := s.segments ++ [⟨s.nextId, p⟩],
               pendingGrowth := s.pendingGrowth - 1,
               nextId := s.nextId + 1 } := by
      simp [snake_growth, hlt, if_pos hpg]
    exact ⟨_, h, by simp, by simp, rfl, rfl, rfl, rfl⟩
  · intro s h0
    simp [snake_growth, h0]

/-- Witness for amended C2: from the two-pending state, one growth pass
leaves exactly one signal pending. -/
theorem snake_growth_one_per_frame_witness :
    (snake_growth twoPendingState).map (fun t => t.pendingGrowth) = some 1 := by
  obtain ⟨s2, hs2, hpos, hlen, hpg, hrest⟩ :=
    snake_growth_one_per_frame.1 twoPendingState ⟨3, 2⟩ rfl (by decide)
  rw [hs2, Option.map_some', hpg]
  decide

/-- Claim C5: on every eating-detector pass, a food is destroyed and exactly
one Growth Signal emitted if and only if its Grid Position equals the head's
(one signal per matching food); with no overlap nothing is destroyed and no
signal is emitted, and the detector touches nothing else. -/
theorem snake_eating_spec :
    ∀ (s : GameState) (headSeg : Segment) (rest : List Segment),
      s.segments = headSeg :: rest →
      (∀ f : Nat × Position,
        f ∈ (snake_eating s).foods ↔ f ∈ s.foods ∧ ¬ f.2 = headSeg.pos) ∧
      ((snake_eating s).pendingGrowth =
        s.pendingGrowth + s.foods.countP (fun f => f.2 = headSeg.pos)) ∧
      ((∀ f ∈ s.foods, ¬ f.2 = headSeg.pos) →
        (snake_eating s).foods = s.foods ∧
        (snake_eating s).pendingGrowth = s.pendingGrowth) ∧
      (snake_eating s).segments = s.segments ∧
      (snake_eating s).lastTail = s.lastTail ∧
      (snake_eating s).direction = s.direction := by
  intro s headSeg rest hseg
  obtain ⟨segs, dir, lt, fd, pg, ni⟩ := s
  simp only at hseg
  subst hseg
  refine ⟨?_, rfl, ?_, rfl, rfl, rfl⟩
  · intro f
    simp [snake_eating, List.mem_filter]
  · intro hnone
    constructor
    · simp only [snake_eating]
      exact List.filter_eq_self.mpr fun f hf => by
        simpa using hnone f hf
    · simp only [snake_eating, Nat.add_eq_left]
      exact List.countP_eq_zero.mpr fun f hf => by
        simpa using hnone f hf

/-- Concrete state for the C5 witness: the spawned snake with one food on
the head's cell and one food elsewhere. -/
def eatingState : GameState :=
  { segments := [⟨0, ⟨3, 3⟩⟩, ⟨1, ⟨3, 2⟩⟩]
  , direction := .Up
  , lastTail := some ⟨3, 2⟩
  , foods := [(5, ⟨3, 3⟩), (6, ⟨9, 9⟩)]
  , pendingGrowth := 0
  , nextId := 7 }

/-- Witness for C5: the food on the head's cell is destroyed and emits one
signal; the other food survives. -/
theorem snake_eating_spec_witness :
    (snake_eating eatingState).pendingGrowth = 1 ∧
    ¬ (5, (⟨3, 3⟩ : Position)) ∈ (snake_eating eatingState).foods ∧
    (6, (⟨9, 9⟩ : Position)) ∈ (snake_eating eatingState).foods := by
  have h := snake_eating_spec eatingState ⟨0, ⟨3, 3⟩⟩ [⟨1, ⟨3, 2⟩⟩] rfl
  refine ⟨?_, ?_, ?_⟩
  · rw [h.2.1]; decide
  · rw [h.1 (5, ⟨3, 3⟩)]; decide
  · rw [h.1 (6, ⟨9, 9⟩)]; decide

/-- Claim C3: for every valid proposed heading h and every current heading c,
the direction update applies h if and only if h is not the exact opposite of
c (opposite pairs Left and Right, Up and Down); when h is the opposite of c,
the stored heading is unchanged. -/
theorem set_candidate_applies_iff_not_opposite :
    ∀ h c : Direction,
      (set_candidate h c = h ↔ ¬ h = c.oppsite) ∧
      (h = c.oppsite → set_candidate h c = c) := by
  decide

/-- Witness for C3: proposing Down against current heading Up (its opposite)
leaves the heading Up. -/
theorem set_candidate_applies_iff_not_opposite_witness :
    set_candidate .Down .Up = .Up :=
  (set_candidate_applies_iff_not_opposite .Down .Up).2 (by decide)

/-- Claim C7: on every input sample the proposed heading is the earliest
pressed key in the fixed priority order Left, Down, Up, Right, and when none
of the four keys is pressed the heading comes out unchanged. -/
theorem input_priority :
    ∀ (k : KeyState) (c : Direction),
      proposedDir k c = (priorityOrder.filter k.holds).headD c ∧
      (priorityOrder.filter k.holds = [] → snake_movement_input k c = c) := by
  decide

/-- Witness for C7: with no arrow key held the heading Up is unchanged. -/
theorem input_priority_witness :
    snake_movement_input ⟨false, false, false, false⟩ .Up = .Up :=
  (input_priority ⟨false, false, false, false⟩ .Up).2 (by decide)

/-- Claim C10: oppsite is a fixed-point-free involution, so with no key
pressed the input system proposes the current heading itself, which always
passes the reversal check and leaves the heading unchanged. -/
theorem oppsite_involution_no_fixed_point :
    (∀ d : Direction, d.oppsite.oppsite = d ∧ ¬ d.oppsite = d) ∧
    (∀ c : Direction,
      proposedDir ⟨false, false, false, false⟩ c = c ∧
      snake_movement_input ⟨false, false, false, false⟩ c = c) := by
  decide

/-- Witness for C10: the involution and preservation facts at Left. -/
theorem oppsite_involution_no_fixed_point_witness :
    Direction.oppsite (Direction.oppsite .Left) = .Left ∧
    snake_movement_input ⟨false, false, false, false⟩ .Left = .Left :=
  ⟨(oppsite_involution_no_fixed_point.1 .Left).1,
   (oppsite_involution_no_fixed_point.2 .Left).2⟩

/-- Claim C8: every food created by the spawner lands at an integer cell
inside the configured arena: for draws in [0, 1), the cell satisfies
0 <= x < ARENA_WIDTH and 0 <= y < ARENA_HEIGHT, and exactly one food is
appended. -/
theorem food_spawner_in_arena :
    ∀ (r1 r2 : ℚ) (s : GameState),
      0 ≤ r1 → r1 < 1 → 0 ≤ r2 → r2 < 1 →
      ∃ fid : Nat, ∃ fpos : Position,
        (food_spawner r1 r2 s).foods = s.foods ++ [(fid, fpos)] ∧
        0 ≤ fpos.x ∧ fpos.x < (ARENA_WIDTH : Int) ∧
        0 ≤ fpos.y ∧ fpos.y < (ARENA_HEIGHT : Int) := by
  intro r1 r2 s h1 h2 h3 h4
  refine ⟨s.nextId, ⟨⌊r1 * (ARENA_WIDTH : ℚ)⌋, ⌊r2 * (ARENA_HEIGHT : ℚ)⌋⟩,
    rfl, ?_, ?_, ?_, ?_⟩
  · exact Int.floor_nonneg.mpr (by positivity)
  · rw [Int.floor_lt]
    simp only [ARENA_WIDTH]
    push_cast
    nlinarith
  · exact Int.floor_nonneg.mpr (by positivity)
  · rw [Int.floor_lt]
    simp only [ARENA_HEIGHT]
    push_cast
    nlinarith

/-- Witness for C8: spawning with both draws equal to 0 appends exactly one
food to the initially empty food table. -/
theorem food_spawner_in_arena_witness :
    (food_spawner 0 0 initialState).foods.length = 1 := by
  obtain ⟨fid, fpos, heq, hb⟩ :=
    food_spawner_in_arena 0 0 initialState le_rfl zero_lt_one le_rfl zero_lt_one
  rw [heq]
  rfl

theorem step_lastTail_isSome (σ : Step) (s : GameState)
    (h : s.lastTail.isSome) : ∃ s2, step σ s = some s2 ∧ s2.lastTail.isSome := by
  cases σ with
  | input k =>
    refine ⟨_, rfl, ?_⟩
    cases hseg : s.segments with
    | nil => simpa [snake_movement_input_state, hseg] using h
    | cons a l => simpa [snake_movement_input_state, hseg] using h
  | move =>
    refine ⟨_, rfl, ?_⟩
    cases hseg : s.segments with
    | nil => simpa [snake_movement, hseg] using h
    | cons a l => simp [snake_movement, hseg]
  | eat =>
    refine ⟨_, rfl, ?_⟩
    cases hseg : s.segments with
    | nil => simpa [snake_eating, hseg] using h
    | cons a l => simpa [snake_eating, hseg] using h
  | grow =>
    obtain ⟨p, hp⟩ := Option.isSome_iff_exists.mp h
    by_cases hpg : 0 < s.pendingGrowth
    · have hstep : step Step.grow s =
          some { s with
                 segments := s.segments ++ [⟨s.nextId, p⟩],
                 pendingGrowth := s.pendingGrowth - 1,
                 nextId := s.nextId + 1 } := by
        simp [step, snake_growth, if_pos hpg, hp]
      exact ⟨_, hstep, by simpa using h⟩
    · exact ⟨s, by simp [step, snake_growth, hpg], h⟩
  | spawnFood r1 r2 =>
    exact ⟨_, rfl, by simpa [food_spawner] using h⟩

theorem run_isSome_of_lastTail :
    ∀ (ss : List Step) (s : GameState), s.lastTail.isSome →
      (run s ss).isSome := by
  intro ss
  induction ss with
  | nil => intro s h; simp [run]
  | cons σ rest ih =>
    intro s h
    obtain ⟨s2, hstep, h2⟩ := step_lastTail_isSome σ s h
    simpa [run, hstep] using ih s2 h2

/-- Claim C4: once a movement tick has run, Last Tail Position is populated
and stays populated, so every later growth pass succeeds; conversely the
growth handler's unwrap of an unset Last Tail Position fails, and that
ordering is reachable: spawn a food onto the head's start cell, eat it, and
grow before any movement tick has run. -/
theorem last_tail_startup_order :
    (∀ ss : List Step, (run initialState (Step.move :: ss)).isSome) ∧
    (∀ s : GameState, s.lastTail = none → 0 < s.pendingGrowth →
      snake_growth s = none) ∧
    run initialState [Step.spawnFood (3/10) (3/10), Step.eat, Step.grow] =
      none := by
  refine ⟨?_, ?_, ?_⟩
  · intro ss
    have hmove : step Step.move initialState = some (snake_movement initialState) := rfl
    have htail : (snake_movement initialState).lastTail.isSome := by decide
    simpa [run, hmove] using run_isSome_of_lastTail ss _ htail
  · intro s h0 hpg
    simp [snake_growth, if_pos hpg, h0]
  · have hx : ⌊(3/10 : ℚ) * (ARENA_WIDTH : ℚ)⌋ = 3 := by
      simp only [ARENA_WIDTH]; norm_num
    have hy : ⌊(3/10 : ℚ) * (ARENA_HEIGHT : ℚ)⌋ = 3 := by
      simp only [ARENA_HEIGHT]; norm_num
    have hfs : food_spawner (3/10) (3/10) initialState =
        { segments := [⟨0, ⟨3, 3⟩⟩, ⟨1, ⟨3, 2⟩⟩]
        , direction := .Up
        , lastTail := none
        , foods := [(2, ⟨3, 3⟩)]
        , pendingGrowth := 0
        , nextId := 3 } := by
      simp [food_spawner, initialState, hx, hy]
    have h1 : run initialState
        [Step.spawnFood (3/10) (3/10), Step.eat, Step.grow] =
        run { segments := [⟨0, ⟨3, 3⟩⟩, ⟨1, ⟨3, 2⟩⟩]
            , direction := .Up
            , lastTail := none
            , foods := [(2, ⟨3, 3⟩)]
            , pendingGrowth := 0
            , nextId := 3 } [Step.eat, Step.grow] := by
      simp [run, step, hfs]
    rw [h1]
    decide

/-- Witness for C4: one movement tick alone succeeds, and growing with one
pending signal but an unset tail cache panics. -/
theorem last_tail_startup_order_witness :
    (run initialState [Step.move]).isSome ∧
    snake_growth
      { segments := [⟨0, ⟨3, 3⟩⟩]
      , direction := .Up
      , lastTail := none
      , foods := []
      , pendingGrowth := 1
      , nextId := 1 } = none :=
  ⟨last_tail_startup_order.1 [],
   last_tail_startup_order.2.1 _ rfl (by decide)⟩

theorem step_segments_extend (σ : Step) (s s2 : GameState)
    (h : step σ s = some s2) :
    ∃ t, s2.segments.map Segment.id = s.segments.map Segment.id ++ t := by
  cases σ with
  | input k =>
    refine ⟨[], ?_⟩
    obtain rfl : snake_movement_input_state k s = s2 := by simpa [step] using h
    cases hseg : s.segments with
    | nil => simp [snake_movement_input_state, hseg]
    | cons a l => simp [snake_movement_input_state, hseg]
  | move =>
    refine ⟨[], ?_⟩
    obtain rfl : snake_movement s = s2 := by simpa [step] using h
    cases hseg : s.segments with
    | nil => simp [snake_movement, hseg]
    | cons a l =>
      simp only [snake_movement, hseg, List.map_cons, List.append_nil]
      rw [zipWith_setPos_map_id (a.pos :: l.map Segment.pos) l
        (by simp [Nat.le_succ])]
  | eat =>
    refine ⟨[], ?_⟩
    obtain rfl : snake_eating s = s2 := by simpa [step] using h
    cases hseg : s.segments with
    | nil => simp [snake_eating, hseg]
    | cons a l => simp [snake_eating, hseg]
  | grow =>
    by_cases hpg : 0 < s.pendingGrowth
    · cases hp : s.lastTail with
      | none => simp [step, snake_growth, if_pos hpg, hp] at h
      | some p =>
        refine ⟨[s.nextId], ?_⟩
        have h2 := h
        simp only [step, snake_growth, if_pos hpg, hp, Option.some.injEq] at h2
        rw [← h2]
        simp
    · refine ⟨[], ?_⟩
      obtain rfl : s = s2 := by simpa [step, snake_growth, hpg] using h
      simp
  | spawnFood r1 r2 =>
    refine ⟨[], ?_⟩
    obtain rfl : food_spawner r1 r2 s = s2 := by simpa [step] using h
    simp [food_spawner]

theorem run_chain_head_invariant :
    ∀ (ss : List Step) (s : GameState),
      2 ≤ s.segments.length → (s.segments.map Segment.id)[0]? = some 0 →
      ∀ s2, run s ss = some s2 →
        2 ≤ s2.segments.length ∧ (s2.segments.map Segment.id)[0]? = some 0 := by
  intro ss
  induction ss with
  | nil =>
    intro s hlen hhead s2 hrun
    obtain rfl : s = s2 := by simpa [run] using hrun
    exact ⟨hlen, hhead⟩
  | cons σ rest ih =>
    intro s hlen hhead s2 hrun
    cases hstep : step σ s with
    | none => simp [run, hstep] at hrun
    | some s1 =>
      obtain ⟨t, ht⟩ := step_segments_extend σ s s1 hstep
      have hlen1 : 2 ≤ s1.segments.length := by
        have := congrArg List.length ht
        simp only [List.length_map, List.length_append] at this
        omega
      have hhead1 : (s1.segments.map Segment.id)[0]? = some 0 := by
        rw [ht, List.getElem?_append_left (by simp only [List.length_map]; omega),
          hhead]
      exact ih s1 hlen1 hhead1 s2 (by simpa [run, hstep] using hrun)

/-- Claim C6: the startup spawn creates exactly two segments, the head first
at (3, 3) heading Up and the body at (3, 2); every system invocation only
appends segment handles (never removes or reorders), so the chain length is
monotonically non-decreasing and from the spawned state the chain is never
empty with the head entity always at index 0. -/
theorem chain_invariants :
    (initialState.segments = [⟨0, ⟨3, 3⟩⟩, ⟨1, ⟨3, 2⟩⟩] ∧
      initialState.direction = .Up) ∧
    (∀ (σ : Step) (s s2 : GameState), step σ s = some s2 →
      (∃ t, s2.segments.map Segment.id = s.segments.map Segment.id ++ t) ∧
      s.segments.length ≤ s2.segments.length) ∧
    (∀ (ss : List Step) (s2 : GameState), run initialState ss = some s2 →
      ¬ s2.segments = [] ∧ 2 ≤ s2.segments.length ∧
      (s2.segments.map Segment.id)[0]? = some 0) := by
  refine ⟨⟨rfl, rfl⟩, ?_, ?_⟩
  · intro σ s s2 h
    obtain ⟨t, ht⟩ := step_segments_extend σ s s2 h
    refine ⟨⟨t, ht⟩, ?_⟩
    have := congrArg List.length ht
    simp only [List.length_map, List.length_append] at this
    omega
  · intro ss s2 hrun
    have h := run_chain_head_invariant ss initialState (by decide) (by decide)
      s2 hrun
    refine ⟨?_, h.1, h.2⟩
    intro hnil
    rw [hnil] at h
    simp at h

/-- Witness for C6: after an eating pass from the spawned state the chain is
still nonempty with the head at index 0, and an eating step only appends
handles. -/
theorem chain_invariants_witness :
    ¬ (snake_eating initialState).segments = [] ∧
    2 ≤ (snake_eating initialState).segments.length ∧
    ((snake_eating initialState).segments.map Segment.id)[0]? = some 0 := by
  have h := chain_invariants.2.2 [Step.eat] (snake_eating initialState)
    (by decide)
  exact h

end BlockBite
